import Mathlib

/-!
Verification of the icingadb sync core (pkg/icingadb/sync.go) and two
config-object row types, via a shallow embedding in Lean.

Checksums are byte strings; errors are opaque strings.  The sync pipeline is
embedded as a trace semantics: `ApplyDelta` produces the ordered list of
redis multi-fetches and database calls the Go function issues, with each
streamed argument described symbolically by an `EntityStream` term that
records the channel pipeline it was built from.
-/

namespace IcingaDB

/-- A checksum is a fixed-width opaque byte string; equality is bytewise and
a length mismatch is inequality, which list equality gives directly. -/
abbrev Chk := List Nat

/-- Keys of an association list from entity id to checksum (Go map keys). -/
def keysOf (m : List (String × Chk)) : List String := m.map Prod.fst

/-- Lookup of an id in an association list (Go map indexing). -/
def findChk (id : String) : List (String × Chk) → Option Chk
  | [] => none
  | p :: rest => if p.1 = id then some p.2 else findChk id rest

/-- Removal of an id from an association list (Go map delete). -/
def rmKey (id : String) : List (String × Chk) → List (String × Chk)
  | [] => []
  | p :: rest => if p.1 = id then rmKey id rest else p :: rmKey id rest

/-- A sync subject: entity type name plus the WithChecksum flag
(common.SyncSubject; factory and prototype are irrelevant to the trace). -/
structure Subject where
  typeName : String
  withChecksum : Bool
deriving DecidableEq, Repr

/-- The three delta partitions (Create, Update as id-to-checksum mappings,
Delete as a flat id list) plus the subject and the outcome of delta.Wait. -/
structure DeltaM where
  subject : Subject
  create : List (String × Chk)
  update : List (String × Chk)
  delete : List String
  waitErr : Option String
deriving DecidableEq, Repr

/-- Result partitions produced by the delta computation. -/
structure ChkDelta where
  create : List (String × Chk)
  update : List (String × Chk)
  delete : List String
deriving DecidableEq, Repr

/-- Modelled from the spec: delta.go (NewDelta) is not under src/.  Spec
section 4.5: drain desired into a map; for each (id, checksum) from actual,
if the id is absent from the desired map append it to Delete, else if
WithChecksum and the checksums differ move the id with its desired checksum
to Update, else just remove it from the desired map; what remains of the
desired map becomes Create. -/
def deltaLoop (w : Bool) : List (String × Chk) → List (String × Chk) →
    List (String × Chk) → List String → ChkDelta
  | [], remaining, upd, del => ⟨remaining, upd, del⟩
  | (id, achk) :: rest, remaining, upd, del =>
    match findChk id remaining with
    | none => deltaLoop w rest remaining upd (del ++ [id])
    | some dchk =>
      if w = true ∧ ¬dchk = achk then
        deltaLoop w rest (rmKey id remaining) (upd ++ [(id, dchk)]) del
      else
        deltaLoop w rest (rmKey id remaining) upd del

/-- Modelled from the spec: the delta constructor, applied to the fully
drained desired and actual (id, checksum) streams of one subject. -/
def NewDelta (w : Bool) (desired actual : List (String × Chk)) : ChkDelta :=
  deltaLoop w actual desired [] []

/-- Redis concurrency settings (sync.go lines 17-21). -/
def count : Nat := 1 <<< 12

/-- Redis concurrency settings (sync.go lines 17-21). -/
def concurrent : Nat := 1 <<< 3

/-- Modelled from the spec: utils.Key is not under src/.  It derives the
cache subject key from the entity type name, lowercasing it and inserting
the separator before each interior uppercase letter. -/
def utilsKeyChars (sep : Char) : List Char → Bool → List Char
  | [], _ => []
  | c :: rest, first =>
    if c.isUpper then
      (if first then [c.toLower] else [sep, c.toLower]) ++ utilsKeyChars sep rest false
    else
      c :: utilsKeyChars sep rest false

/-- Modelled from the spec: utils.Key applied to a type name with a
separator character. -/
def utilsKey (name : String) (sep : Char) : String :=
  String.mk (utilsKeyChars sep name.toList true)

/-- The cache namespace built in ApplyDelta for both HMYield calls
(sync.go lines 110 and 137): "icinga:" plus the subject key of the type
name with separator ':'. -/
def cacheNS (s : Subject) : String := "icinga:" ++ utilsKey s.typeName ':'

/-- The dump-signal key SyncAfterDump waits on (sync.go lines 41-42):
"icinga:" plus the subject key of the type name with separator ':'. -/
def syncAfterDumpKey (s : Subject) : String :=
  "icinga:" ++ utilsKey s.typeName ':'

/-- Symbolic description of an entity stream: which channel pipeline built
it.  `pairs` is the data channel returned by redis.HMYield, `hydrated` the
output of icingaredis.CreateEntities, `withChecksums` the output of
icingaredis.SetChecksums with its checksum mapping, and `shells` the stream
delta.Create.Entities(ctx) synthesizes from the delta itself. -/
inductive EntityStream where
  | pairs (ns : String) (cnt conc : Nat) (keys : List String) : EntityStream
  | hydrated (src : EntityStream) (workers : Nat) : EntityStream
  | withChecksums (src : EntityStream) (m : List (String × Chk)) (workers : Nat) : EntityStream
  | shells (m : List (String × Chk)) : EntityStream
deriving DecidableEq, Repr

/-- One externally visible call issued by ApplyDelta, in program order:
a redis HMYield multi-fetch, or a database write entry point. -/
inductive SyncCall where
  | hmYield (ns : String) (cnt conc : Nat) (keys : List String) : SyncCall
  | createStreamed (src : EntityStream) : SyncCall
  | updateStreamed (src : EntityStream) : SyncCall
  | dbDelete (ids : List String) : SyncCall
deriving DecidableEq, Repr

/-- Whether a stream pipeline contains a cache fetch stage. -/
def streamFetches : EntityStream → Bool
  | .pairs _ _ _ _ => true
  | .hydrated src _ => streamFetches src
  | .withChecksums src _ _ => streamFetches src
  | .shells _ => false

/-- Whether a stream pipeline contains a hydration stage. -/
def streamHydrates : EntityStream → Bool
  | .pairs _ _ _ _ => false
  | .hydrated _ _ => true
  | .withChecksums src _ _ => streamHydrates src
  | .shells _ => false

/-- Whether a stream pipeline contains a checksum-binding stage. -/
def streamBinds : EntityStream → Bool
  | .pairs _ _ _ _ => false
  | .hydrated src _ => streamBinds src
  | .withChecksums _ _ _ => true
  | .shells _ => false

/-- Call classifiers over the trace. -/
def isCreateCall : SyncCall → Bool
  | .createStreamed _ => true
  | _ => false

/-- Call classifiers over the trace. -/
def isUpdateCall : SyncCall → Bool
  | .updateStreamed _ => true
  | _ => false

/-- Call classifiers over the trace. -/
def isDeleteCall : SyncCall → Bool
  | .dbDelete _ => true
  | _ => false

/-- Call classifiers over the trace. -/
def isFetchCall : SyncCall → Bool
  | .hmYield _ _ _ _ => true
  | _ => false

/-- The Create block of ApplyDelta (sync.go lines 104-130): when the Create
partition is non-empty, a WithChecksum subject fetches payloads with HMYield
on the Create keys, hydrates them, binds checksums from the Create mapping
and streams the result to db.CreateStreamed; otherwise the shell stream
delta.Create.Entities feeds db.CreateStreamed directly. -/
def createPart (d : DeltaM) (ncpu : Nat) : List SyncCall :=
  if 0 < d.create.length then
    if d.subject.withChecksum then
      [SyncCall.hmYield (cacheNS d.subject) count concurrent (keysOf d.create),
       SyncCall.createStreamed
         (.withChecksums
           (.hydrated (.pairs (cacheNS d.subject) count concurrent (keysOf d.create)) ncpu)
           d.create ncpu)]
    else
      [SyncCall.createStreamed (.shells d.create)]
  else []

/-- The Update block of ApplyDelta (sync.go lines 132-157): when the Update
partition is non-empty, unconditionally HMYield on the Update keys, hydrate,
bind checksums from the Update mapping, and stream to db.UpdateStreamed. -/
def updatePart (d : DeltaM) (ncpu : Nat) : List SyncCall :=
  if 0 < d.update.length then
    [SyncCall.hmYield (cacheNS d.subject) count concurrent (keysOf d.update),
     SyncCall.updateStreamed
       (.withChecksums
         (.hydrated (.pairs (cacheNS d.subject) count concurrent (keysOf d.update)) ncpu)
         d.update ncpu)]
  else []

/-- The Delete block of ApplyDelta (sync.go lines 159-165): when the Delete
partition is non-empty, one db.Delete call on the flat id list. -/
def deletePart (d : DeltaM) : List SyncCall :=
  if 0 < d.delete.length then [SyncCall.dbDelete d.delete] else []

/-- All calls ApplyDelta issues after delta.Wait succeeded, in program
order. -/
def applyCalls (d : DeltaM) (ncpu : Nat) : List SyncCall :=
  createPart d ncpu ++ updatePart d ncpu ++ deletePart d

/-- ApplyDelta (sync.go lines 97-168): if delta.Wait returns an error,
return it at once; otherwise launch the Create, Update and Delete subtasks
for the non-empty partitions and return the resulting call trace. -/
def ApplyDelta (d : DeltaM) (ncpu : Nat) : Except String (List SyncCall) :=
  match d.waitErr with
  | some e => .error e
  | none => .ok (applyCalls d ncpu)

/-- Events the SyncAfterDump select loop (sync.go lines 49-70) can observe:
a tick of the progress-log ticker, the dump-done signal for the subject
key, or cancellation of the surrounding context. -/
inductive DumpEvent where
  | tick : DumpEvent
  | dumpDone : DumpEvent
  | ctxCancelled : DumpEvent
deriving DecidableEq, Repr

/-- SyncAfterDump (sync.go lines 40-71) with the select nondeterminism
resolved by the given event sequence: ticks only log and loop; the
dump-done signal starts the sync and returns its result; context
cancellation returns the context error without starting the sync.  The
result pairs the returned error with whether Sync was invoked; `none`
means the loop is still waiting. -/
def SyncAfterDump (s : Subject) (events : List DumpEvent) (ctxErr : String)
    (syncResult : Option String) : Option (Option String × Bool) :=
  match events with
  | [] => none
  | .tick :: rest => SyncAfterDump s rest ctxErr syncResult
  | .dumpDone :: _ => some (syncResult, true)
  | .ctxCancelled :: _ => some (some ctxErr, false)

/-- The first non-tick event of a run: which of the two terminating select
cases fires first. -/
def firstSignal : List DumpEvent → Option DumpEvent
  | [] => none
  | .tick :: rest => firstSignal rest
  | e :: _ => some e

/-- A 64-bit floating point field carried opaquely: the row code only passes
such fields through (or formats them), never computes with them. -/
structure Float64 where
  bits : Nat
deriving DecidableEq, Repr

/-- One value of a SQL parameter list, kept symbolic: the utils helpers
(Checksum, EncodeChecksum, CommentEntryTypes, Bool) are not under src/, so
each constructor records which helper was applied to which field. -/
inductive SqlValue where
  | checksum (s : String) : SqlValue
  | encodeChecksum (s : String) : SqlValue
  | str (s : String) : SqlValue
  | entryTypeName (t : Float64) : SqlValue
  | float (t : Float64) : SqlValue
  | boolVal (b : Bool) : SqlValue
deriving DecidableEq, Repr

/-- Row type of hostgroup_customvar
(configobject/objecttypes/hostgroup/hostgroupcustomvar). -/
structure HostgroupCustomvar where
  Id : String
  HostgroupId : String
  CustomvarId : String
  EnvId : String
deriving DecidableEq, Repr

/-- UpdateValues of HostgroupCustomvar: checksums of the three reference
columns. -/
def HostgroupCustomvar.UpdateValues (c : HostgroupCustomvar) : List SqlValue :=
  [] ++ [SqlValue.checksum c.HostgroupId, SqlValue.checksum c.CustomvarId,
         SqlValue.checksum c.EnvId]

/-- InsertValues of HostgroupCustomvar: the id checksum prepended to
UpdateValues. -/
def HostgroupCustomvar.InsertValues (c : HostgroupCustomvar) : List SqlValue :=
  [SqlValue.checksum c.Id] ++ c.UpdateValues

/-- Row type of service_comment (configobject/objecttypes/servicecomment). -/
structure ServiceComment where
  Id : String
  EnvId : String
  ServiceId : String
  NameChecksum : String
  PropertiesChecksum : String
  Name : String
  Author : String
  Text : String
  EntryType : Float64
  EntryTime : Float64
  IsPersistent : Bool
  ExpireTime : Float64
  ZoneId : String
deriving DecidableEq, Repr

/-- UpdateValues of ServiceComment: encoded checksums, plain strings, the
entry-type name looked up from the formatted entry type, the raw floats
and the boolean mapped through utils.Bool. -/
def ServiceComment.UpdateValues (s : ServiceComment) : List SqlValue :=
  [] ++ [SqlValue.encodeChecksum s.EnvId, SqlValue.encodeChecksum s.ServiceId,
         SqlValue.encodeChecksum s.NameChecksum,
         SqlValue.encodeChecksum s.PropertiesChecksum,
         SqlValue.str s.Name, SqlValue.str s.Author, SqlValue.str s.Text,
         SqlValue.entryTypeName s.EntryType, SqlValue.float s.EntryTime,
         SqlValue.boolVal s.IsPersistent, SqlValue.float s.ExpireTime,
         SqlValue.encodeChecksum s.ZoneId]

/-- InsertValues of ServiceComment: the encoded id checksum prepended to
UpdateValues. -/
def ServiceComment.InsertValues (s : ServiceComment) : List SqlValue :=
  [SqlValue.encodeChecksum s.Id] ++ s.UpdateValues

/-- Sample subjects and deltas used by the concrete witnesses. -/
def hostSubject : Subject := { typeName := "HostState", withChecksum := true }

/-- Sample subjects and deltas used by the concrete witnesses. -/
def cvSubject : Subject := { typeName := "HostgroupCustomvar", withChecksum := false }

/-- Sample subjects and deltas used by the concrete witnesses. -/
def sampleDelta : DeltaM :=
  { subject := hostSubject, create := [("a", [1])], update := [("b", [2])],
    delete := ["c"], waitErr := none }

/-- Sample subjects and deltas used by the concrete witnesses. -/
def sampleDeltaNC : DeltaM :=
  { subject := cvSubject, create := [("a", [1]), ("b", [2])], update := [],
    delete := [], waitErr := none }

/-- Sample subjects and deltas used by the concrete witnesses. -/
def deleteOnlyDelta : DeltaM :=
  { subject := hostSubject, create := [], update := [],
    delete := ["a", "b"], waitErr := none }

/-- Sample subjects and deltas used by the concrete witnesses. -/
def failedDelta : DeltaM :=
  { subject := hostSubject, create := [("a", [1])], update := [],
    delete := ["c"], waitErr := some "context canceled" }

@[simp] theorem keysOf_nil : keysOf [] = [] := rfl

@[simp] theorem keysOf_cons (p : String × Chk) (l : List (String × Chk)) :
    keysOf (p :: l) = p.1 :: keysOf l := rfl

theorem keysOf_append (a b : List (String × Chk)) :
    keysOf (a ++ b) = keysOf a ++ keysOf b :=
  List.map_append _ a b

theorem findChk_eq_none {id : String} {l : List (String × Chk)} :
    findChk id l = none ↔ id ∉ keysOf l := by
  induction l with
  | nil => simp [findChk]
  | cons p rest ih =>
    simp only [findChk, keysOf_cons, List.mem_cons]
    by_cases h : p.1 = id
    · simp [h]
    · rw [if_neg h, ih]
      constructor
      · rintro h1 (h2 | h2)
        · exact h h2.symm
        · exact h1 h2
      · intro h1 h2
        exact h1 (Or.inr h2)

theorem findChk_some_mem {id : String} {l : List (String × Chk)} {c : Chk}
    (h : findChk id l = some c) : id ∈ keysOf l := by
  by_contra hc
  have hn := findChk_eq_none.mpr hc
  rw [h] at hn
  exact Option.noConfusion hn

theorem mem_keysOf_rmKey {k id : String} {l : List (String × Chk)} :
    k ∈ keysOf (rmKey id l) ↔ k ∈ keysOf l ∧ ¬k = id := by
  induction l with
  | nil => simp [rmKey]
  | cons p rest ih =>
    by_cases h : p.1 = id
    · rw [rmKey, if_pos h, ih]
      simp only [keysOf_cons, List.mem_cons]
      constructor
      · rintro ⟨h1, h2⟩
        exact ⟨Or.inr h1, h2⟩
      · rintro ⟨h1 | h1, h2⟩
        · exact absurd (h1.trans h) h2
        · exact ⟨h1, h2⟩
    · rw [rmKey, if_neg h]
      simp only [keysOf_cons, List.mem_cons, ih]
      constructor
      · rintro (h1 | ⟨h1, h2⟩)
        · exact ⟨Or.inl h1, fun he => h (h1.symm.trans he)⟩
        · exact ⟨Or.inr h1, h2⟩
      · rintro ⟨h1 | h1, h2⟩
        · exact Or.inl h1
        · exact Or.inr ⟨h1, h2⟩

theorem deltaLoop_cons_none {w : Bool} {id : String} {achk : Chk}
    {rest rem upd : List (String × Chk)} {del : List String}
    (h : findChk id rem = none) :
    deltaLoop w ((id, achk) :: rest) rem upd del =
      deltaLoop w rest rem upd (del ++ [id]) := by
  simp [deltaLoop, h]

theorem deltaLoop_cons_some {w : Bool} {id : String} {achk dchk : Chk}
    {rest rem upd : List (String × Chk)} {del : List String}
    (h : findChk id rem = some dchk) :
    deltaLoop w ((id, achk) :: rest) rem upd del =
      if w = true ∧ ¬dchk = achk then
        deltaLoop w rest (rmKey id rem) (upd ++ [(id, dchk)]) del
      else deltaLoop w rest (rmKey id rem) upd del := by
  simp [deltaLoop, h]

theorem deltaLoop_create_mem (w : Bool) (a : List (String × Chk)) :
    ∀ rem upd del k, k ∈ keysOf (deltaLoop w a rem upd del).create ↔
      (k ∈ keysOf rem ∧ k ∉ keysOf a) := by
  induction a with
  | nil =>
    intro rem upd del k
    simp [deltaLoop]
  | cons p rest ih =>
    intro rem upd del k
    obtain ⟨id, achk⟩ := p
    cases hfind : findChk id rem with
    | none =>
      have hid : id ∉ keysOf rem := findChk_eq_none.mp hfind
      rw [deltaLoop_cons_none hfind, ih]
      simp only [keysOf_cons, List.mem_cons]
      constructor
      · rintro ⟨h1, h2⟩
        refine ⟨h1, ?_⟩
        rintro (rfl | h3)
        · exact hid h1
        · exact h2 h3
      · rintro ⟨h1, h2⟩
        exact ⟨h1, fun h3 => h2 (Or.inr h3)⟩
    | some dchk =>
      rw [deltaLoop_cons_some hfind]
      by_cases hw : w = true ∧ ¬dchk = achk
      · rw [if_pos hw, ih]
        simp only [mem_keysOf_rmKey, keysOf_cons, List.mem_cons]
        tauto
      · rw [if_neg hw, ih]
        simp only [mem_keysOf_rmKey, keysOf_cons, List.mem_cons]
        tauto

theorem deltaLoop_delete_mem (w : Bool) (a : List (String × Chk)) :
    ∀ rem upd del k, (keysOf a).Nodup →
      (k ∈ (deltaLoop w a rem upd del).delete ↔
        (k ∈ del ∨ (k ∈ keysOf a ∧ k ∉ keysOf rem))) := by
  induction a with
  | nil =>
    intro rem upd del k _
    simp [deltaLoop]
  | cons p rest ih =>
    intro rem upd del k hnd
    obtain ⟨id, achk⟩ := p
    rw [keysOf_cons, List.nodup_cons] at hnd
    obtain ⟨hid, hrest⟩ := hnd
    cases hfind : findChk id rem with
    | none =>
      have hmem : id ∉ keysOf rem := findChk_eq_none.mp hfind
      rw [deltaLoop_cons_none hfind, ih _ _ _ _ hrest]
      simp only [keysOf_cons, List.mem_cons, List.mem_append, List.mem_singleton,
        List.not_mem_nil, or_false]
      constructor
      · rintro ((h | rfl) | ⟨h1, h2⟩)
        · exact Or.inl h
        · exact Or.inr ⟨Or.inl rfl, hmem⟩
        · exact Or.inr ⟨Or.inr h1, h2⟩
      · rintro (h | ⟨rfl | h1, h2⟩)
        · exact Or.inl (Or.inl h)
        · exact Or.inl (Or.inr rfl)
        · exact Or.inr ⟨h1, h2⟩
    | some dchk =>
      have hmem : id ∈ keysOf rem := findChk_some_mem hfind
      rw [deltaLoop_cons_some hfind]
      have key : ∀ upd2 : List (String × Chk),
          k ∈ (deltaLoop w rest (rmKey id rem) upd2 del).delete ↔
            (k ∈ del ∨ (k ∈ keysOf ((id, achk) :: rest) ∧ k ∉ keysOf rem)) := by
        intro upd2
        rw [ih _ _ _ _ hrest]
        simp only [mem_keysOf_rmKey, keysOf_cons, List.mem_cons]
        constructor
        · rintro (h | ⟨h1, h2⟩)
          · exact Or.inl h
          · have hne : ¬k = id := fun he => hid (he ▸ h1)
            exact Or.inr ⟨Or.inr h1, fun hk => h2 ⟨hk, hne⟩⟩
        · rintro (h | ⟨rfl | h1, h2⟩)
          · exact Or.inl h
          · exact absurd hmem h2
          · exact Or.inr ⟨h1, fun hp => h2 hp.1⟩
      by_cases hw : w = true ∧ ¬dchk = achk
      · rw [if_pos hw]
        exact key _
      · rw [if_neg hw]
        exact key _

theorem deltaLoop_update_sub (w : Bool) (a : List (String × Chk)) :
    ∀ rem upd del k, k ∈ keysOf (deltaLoop w a rem upd del).update →
      (k ∈ keysOf upd ∨ (k ∈ keysOf a ∧ k ∈ keysOf rem)) := by
  induction a with
  | nil =>
    intro rem upd del k h
    simp only [deltaLoop] at h
    exact Or.inl h
  | cons p rest ih =>
    intro rem upd del k h
    obtain ⟨id, achk⟩ := p
    cases hfind : findChk id rem with
    | none =>
      rw [deltaLoop_cons_none hfind] at h
      rcases ih _ _ _ _ h with h1 | ⟨h1, h2⟩
      · exact Or.inl h1
      · exact Or.inr ⟨by simp [h1], h2⟩
    | some dchk =>
      have hmem : id ∈ keysOf rem := findChk_some_mem hfind
      rw [deltaLoop_cons_some hfind] at h
      by_cases hw : w = true ∧ ¬dchk = achk
      · rw [if_pos hw] at h
        rcases ih _ _ _ _ h with h1 | ⟨h1, h2⟩
        · rw [keysOf_append, List.mem_append] at h1
          rcases h1 with h3 | h3
          · exact Or.inl h3
          · have hk : k = id := by simpa [keysOf] using h3
            subst hk
            exact Or.inr ⟨by simp, hmem⟩
        · exact Or.inr ⟨by simp [h1], (mem_keysOf_rmKey.mp h2).1⟩
      · rw [if_neg hw] at h
        rcases ih _ _ _ _ h with h1 | ⟨h1, h2⟩
        · exact Or.inl h1
        · exact Or.inr ⟨by simp [h1], (mem_keysOf_rmKey.mp h2).1⟩

theorem deltaLoop_update_of_false (a : List (String × Chk)) :
    ∀ rem upd del, (deltaLoop false a rem upd del).update = upd := by
  induction a with
  | nil =>
    intro rem upd del
    simp [deltaLoop]
  | cons p rest ih =>
    intro rem upd del
    obtain ⟨id, achk⟩ := p
    cases hfind : findChk id rem with
    | none =>
      rw [deltaLoop_cons_none hfind]
      exact ih _ _ _
    | some dchk =>
      rw [deltaLoop_cons_some hfind, if_neg (by simp)]
      exact ih _ _ _

/-- A subject without checksums never produces a non-empty Update
partition. -/
theorem newDelta_update_empty (D A : List (String × Chk)) :
    (NewDelta false D A).update = [] :=
  deltaLoop_update_of_false A D [] []

theorem ApplyDelta_ok_inv {d : DeltaM} {ncpu : Nat} {tr : List SyncCall}
    (h : ApplyDelta d ncpu = .ok tr) : d.waitErr = none ∧ tr = applyCalls d ncpu := by
  cases hw : d.waitErr with
  | none =>
    simp only [ApplyDelta, hw, Except.ok.injEq] at h
    exact ⟨rfl, h.symm⟩
  | some e =>
    simp only [ApplyDelta, hw] at h
    exact Except.noConfusion h

theorem applyCalls_fetch_shape {d : DeltaM} {ncpu : Nat} {ns : String}
    {cnt conc : Nat} {ks : List String}
    (hm : SyncCall.hmYield ns cnt conc ks ∈ applyCalls d ncpu) :
    ns = cacheNS d.subject ∧ cnt = count ∧ conc = concurrent ∧
      (ks = keysOf d.create ∨ ks = keysOf d.update) := by
  simp only [applyCalls, List.mem_append] at hm
  rcases hm with (hm | hm) | hm
  · rw [createPart] at hm
    split_ifs at hm with h1 h2
    · simp only [List.mem_cons, List.not_mem_nil, or_false, SyncCall.hmYield.injEq] at hm
      rcases hm with ⟨h3, h4, h5, h6⟩ | hm
      · exact ⟨h3, h4, h5, Or.inl h6⟩
      · exact absurd hm (by simp)
    · simp at hm
    · simp at hm
  · rw [updatePart] at hm
    split_ifs at hm with h1
    · simp only [List.mem_cons, List.not_mem_nil, or_false, SyncCall.hmYield.injEq] at hm
      rcases hm with ⟨h3, h4, h5, h6⟩ | hm
      · exact ⟨h3, h4, h5, Or.inr h6⟩
      · exact absurd hm (by simp)
    · simp at hm
  · rw [deletePart] at hm
    split_ifs at hm with h1
    · simp at hm
    · simp at hm

/-- C4: for every desired map D, actual map A and WithChecksum flag w, the
delta satisfies keys(Create) = keys(D) minus keys(A), Delete = keys(A)
minus keys(D), the three partitions are pairwise disjoint, and a false
flag forces an empty Update partition. -/
theorem NewDelta_invariants (w : Bool) (D A : List (String × Chk))
    (hD : (keysOf D).Nodup) (hA : (keysOf A).Nodup) :
    (∀ k, k ∈ keysOf (NewDelta w D A).create ↔ (k ∈ keysOf D ∧ k ∉ keysOf A)) ∧
    (∀ k, k ∈ (NewDelta w D A).delete ↔ (k ∈ keysOf A ∧ k ∉ keysOf D)) ∧
    (∀ k, ¬(k ∈ keysOf (NewDelta w D A).create ∧ k ∈ keysOf (NewDelta w D A).update)) ∧
    (∀ k, ¬(k ∈ keysOf (NewDelta w D A).create ∧ k ∈ (NewDelta w D A).delete)) ∧
    (∀ k, ¬(k ∈ keysOf (NewDelta w D A).update ∧ k ∈ (NewDelta w D A).delete)) ∧
    (w = false → (NewDelta w D A).update = []) := by
  have hc : ∀ k, k ∈ keysOf (NewDelta w D A).create ↔ (k ∈ keysOf D ∧ k ∉ keysOf A) :=
    fun k => deltaLoop_create_mem w A D [] [] k
  have hd : ∀ k, k ∈ (NewDelta w D A).delete ↔ (k ∈ keysOf A ∧ k ∉ keysOf D) := by
    intro k
    have h := deltaLoop_delete_mem w A D [] [] k hA
    simpa using h
  have hu : ∀ k, k ∈ keysOf (NewDelta w D A).update → (k ∈ keysOf A ∧ k ∈ keysOf D) := by
    intro k hk
    rcases deltaLoop_update_sub w A D [] [] k hk with h1 | h1
    · simp [keysOf] at h1
    · exact h1
  refine ⟨hc, hd, ?_, ?_, ?_, ?_⟩
  · rintro k ⟨h1, h2⟩
    exact ((hc k).mp h1).2 (hu k h2).1
  · rintro k ⟨h1, h2⟩
    exact ((hc k).mp h1).2 ((hd k).mp h2).1
  · rintro k ⟨h1, h2⟩
    exact ((hd k).mp h2).2 (hu k h1).2
  · rintro rfl
    exact newDelta_update_empty D A

/-- Concrete run for NewDelta_invariants: spec scenario 3, desired
x:AA y:BB z:CC against actual y:BB z:C0 w:DD with checksums. -/
theorem NewDelta_invariants_witness :
    ((keysOf [("x", ([170] : Chk)), ("y", [187]), ("z", [204])]).Nodup ∧
     (keysOf [("y", ([187] : Chk)), ("z", [192]), ("w", [221])]).Nodup) ∧
    ((∀ k, k ∈ keysOf (NewDelta true [("x", ([170] : Chk)), ("y", [187]), ("z", [204])]
        [("y", ([187] : Chk)), ("z", [192]), ("w", [221])]).create ↔
        (k ∈ keysOf [("x", ([170] : Chk)), ("y", [187]), ("z", [204])] ∧
         k ∉ keysOf [("y", ([187] : Chk)), ("z", [192]), ("w", [221])])) ∧
     (∀ k, k ∈ (NewDelta true [("x", ([170] : Chk)), ("y", [187]), ("z", [204])]
        [("y", ([187] : Chk)), ("z", [192]), ("w", [221])]).delete ↔
        (k ∈ keysOf [("y", ([187] : Chk)), ("z", [192]), ("w", [221])] ∧
         k ∉ keysOf [("x", ([170] : Chk)), ("y", [187]), ("z", [204])])) ∧
     (∀ k, ¬(k ∈ keysOf (NewDelta true [("x", ([170] : Chk)), ("y", [187]), ("z", [204])]
        [("y", ([187] : Chk)), ("z", [192]), ("w", [221])]).create ∧
        k ∈ keysOf (NewDelta true [("x", ([170] : Chk)), ("y", [187]), ("z", [204])]
        [("y", ([187] : Chk)), ("z", [192]), ("w", [221])]).update)) ∧
     (∀ k, ¬(k ∈ keysOf (NewDelta true [("x", ([170] : Chk)), ("y", [187]), ("z", [204])]
        [("y", ([187] : Chk)), ("z", [192]), ("w", [221])]).create ∧
        k ∈ (NewDelta true [("x", ([170] : Chk)), ("y", [187]), ("z", [204])]
        [("y", ([187] : Chk)), ("z", [192]), ("w", [221])]).delete)) ∧
     (∀ k, ¬(k ∈ keysOf (NewDelta true [("x", ([170] : Chk)), ("y", [187]), ("z", [204])]
        [("y", ([187] : Chk)), ("z", [192]), ("w", [221])]).update ∧
        k ∈ (NewDelta true [("x", ([170] : Chk)), ("y", [187]), ("z", [204])]
        [("y", ([187] : Chk)), ("z", [192]), ("w", [221])]).delete)) ∧
     (true = false → (NewDelta true [("x", ([170] : Chk)), ("y", [187]), ("z", [204])]
        [("y", ([187] : Chk)), ("z", [192]), ("w", [221])]).update = [])) :=
  ⟨⟨by decide, by decide⟩,
   NewDelta_invariants true
     [("x", ([170] : Chk)), ("y", [187]), ("z", [204])]
     [("y", ([187] : Chk)), ("z", [192]), ("w", [221])]
     (by decide) (by decide)⟩

/-- C6: in the SyncAfterDump select loop, if context cancellation fires
before the dump-done signal the function returns the context error and
never invokes Sync; if the dump-done signal fires first it invokes Sync
and returns its result. -/
theorem SyncAfterDump_gate (s : Subject) (events : List DumpEvent)
    (ctxErr : String) (syncResult : Option String) :
    (firstSignal events = some DumpEvent.ctxCancelled →
      SyncAfterDump s events ctxErr syncResult = some (some ctxErr, false)) ∧
    (firstSignal events = some DumpEvent.dumpDone →
      SyncAfterDump s events ctxErr syncResult = some (syncResult, true)) := by
  induction events with
  | nil => simp [firstSignal, SyncAfterDump]
  | cons e rest ih =>
    cases e with
    | tick => simpa [firstSignal, SyncAfterDump] using ih
    | dumpDone => simp [firstSignal, SyncAfterDump]
    | ctxCancelled => simp [firstSignal, SyncAfterDump]

/-- Concrete runs for SyncAfterDump_gate: a cancellation after one tick
skips the sync, a dump-done signal after one tick starts it. -/
theorem SyncAfterDump_gate_witness :
    (firstSignal [DumpEvent.tick, DumpEvent.ctxCancelled] = some DumpEvent.ctxCancelled ∧
      SyncAfterDump hostSubject [DumpEvent.tick, DumpEvent.ctxCancelled]
        "context canceled" none = some (some "context canceled", false)) ∧
    (firstSignal [DumpEvent.tick, DumpEvent.dumpDone] = some DumpEvent.dumpDone ∧
      SyncAfterDump hostSubject [DumpEvent.tick, DumpEvent.dumpDone]
        "context canceled" (some "db gone") = some (some "db gone", true)) :=
  ⟨⟨rfl, (SyncAfterDump_gate hostSubject [DumpEvent.tick, DumpEvent.ctxCancelled]
      "context canceled" none).1 rfl⟩,
   ⟨rfl, (SyncAfterDump_gate hostSubject [DumpEvent.tick, DumpEvent.dumpDone]
      "context canceled" (some "db gone")).2 rfl⟩⟩

/-- C9: if delta.Wait returns an error, ApplyDelta returns that same error
at once and issues no call at all: no trace of redis or database calls is
produced. -/
theorem ApplyDelta_wait_error (d : DeltaM) (ncpu : Nat) (e : String)
    (h : d.waitErr = some e) :
    ApplyDelta d ncpu = .error e ∧ ∀ tr : List SyncCall, ¬ApplyDelta d ncpu = .ok tr := by
  have he : ApplyDelta d ncpu = .error e := by
    simp [ApplyDelta, h]
  refine ⟨he, ?_⟩
  intro tr hok
  rw [he] at hok
  exact Except.noConfusion hok

/-- Concrete run for ApplyDelta_wait_error: a delta whose Wait failed with
a cancellation error. -/
theorem ApplyDelta_wait_error_witness :
    failedDelta.waitErr = some "context canceled" ∧
    (ApplyDelta failedDelta 4 = .error "context canceled" ∧
     ∀ tr : List SyncCall, ¬ApplyDelta failedDelta 4 = .ok tr) :=
  ⟨rfl, ApplyDelta_wait_error failedDelta 4 "context canceled" rfl⟩

/-- C1: with a non-empty Create partition, a WithChecksum subject fetches
payloads with HMYield on the Create keys, hydrates them, binds checksums
from the Create mapping, and streams the result to CreateStreamed; a
subject without checksums streams the shell entities straight to
CreateStreamed with no cache fetch, hydration or checksum binding. -/
theorem ApplyDelta_create_branch (d : DeltaM) (ncpu : Nat) (tr : List SyncCall)
    (hn : d.waitErr = none) (hc : d.create ≠ [])
    (h : ApplyDelta d ncpu = .ok tr) :
    (d.subject.withChecksum = true →
      SyncCall.hmYield (cacheNS d.subject) count concurrent (keysOf d.create) ∈ tr ∧
      SyncCall.createStreamed
        (EntityStream.withChecksums
          (EntityStream.hydrated
            (EntityStream.pairs (cacheNS d.subject) count concurrent (keysOf d.create)) ncpu)
          d.create ncpu) ∈ tr) ∧
    (d.subject.withChecksum = false →
      SyncCall.createStreamed (EntityStream.shells d.create) ∈ tr ∧
      streamFetches (EntityStream.shells d.create) = false ∧
      streamHydrates (EntityStream.shells d.create) = false ∧
      streamBinds (EntityStream.shells d.create) = false) := by
  obtain ⟨-, htr⟩ := ApplyDelta_ok_inv h
  subst htr
  have hlen : 0 < d.create.length := List.length_pos.mpr hc
  constructor
  · intro hwc
    constructor
    · apply List.mem_append_left
      apply List.mem_append_left
      rw [createPart, if_pos hlen, if_pos hwc]
      simp
    · apply List.mem_append_left
      apply List.mem_append_left
      rw [createPart, if_pos hlen, if_pos hwc]
      simp
  · intro hwc
    refine ⟨?_, rfl, rfl, rfl⟩
    apply List.mem_append_left
    apply List.mem_append_left
    rw [createPart, if_pos hlen, if_neg (by simp [hwc])]
    simp

/-- Concrete run for ApplyDelta_create_branch: a checksummed subject with
one key in every partition. -/
theorem ApplyDelta_create_branch_witness :
    (sampleDelta.waitErr = none ∧ sampleDelta.create ≠ [] ∧
      ApplyDelta sampleDelta 4 = .ok (applyCalls sampleDelta 4)) ∧
    ((sampleDelta.subject.withChecksum = true →
        SyncCall.hmYield (cacheNS sampleDelta.subject) count concurrent
          (keysOf sampleDelta.create) ∈ applyCalls sampleDelta 4 ∧
        SyncCall.createStreamed
          (EntityStream.withChecksums
            (EntityStream.hydrated
              (EntityStream.pairs (cacheNS sampleDelta.subject) count concurrent
                (keysOf sampleDelta.create)) 4)
            sampleDelta.create 4) ∈ applyCalls sampleDelta 4) ∧
     (sampleDelta.subject.withChecksum = false →
        SyncCall.createStreamed (EntityStream.shells sampleDelta.create) ∈
          applyCalls sampleDelta 4 ∧
        streamFetches (EntityStream.shells sampleDelta.create) = false ∧
        streamHydrates (EntityStream.shells sampleDelta.create) = false ∧
        streamBinds (EntityStream.shells sampleDelta.create) = false)) :=
  ⟨⟨rfl, by decide, rfl⟩,
   ApplyDelta_create_branch sampleDelta 4 (applyCalls sampleDelta 4) rfl (by decide) rfl⟩

/-- C2: a non-empty Update partition always goes through HMYield on the
Update keys, hydration, checksum binding with the Update mapping and
UpdateStreamed, whatever the subject; and a subject without checksums
never produces a non-empty Update partition in the first place. -/
theorem ApplyDelta_update_path (d : DeltaM) (ncpu : Nat) (tr : List SyncCall)
    (hn : d.waitErr = none) (hu : d.update ≠ [])
    (h : ApplyDelta d ncpu = .ok tr) :
    (SyncCall.hmYield (cacheNS d.subject) count concurrent (keysOf d.update) ∈ tr ∧
     SyncCall.updateStreamed
       (EntityStream.withChecksums
         (EntityStream.hydrated
           (EntityStream.pairs (cacheNS d.subject) count concurrent (keysOf d.update)) ncpu)
         d.update ncpu) ∈ tr) ∧
    (∀ D A : List (String × Chk), (NewDelta false D A).update = []) := by
  obtain ⟨-, htr⟩ := ApplyDelta_ok_inv h
  subst htr
  have hlen : 0 < d.update.length := List.length_pos.mpr hu
  refine ⟨⟨?_, ?_⟩, newDelta_update_empty⟩
  · apply List.mem_append_left
    apply List.mem_append_right
    rw [updatePart, if_pos hlen]
    simp
  · apply List.mem_append_left
    apply List.mem_append_right
    rw [updatePart, if_pos hlen]
    simp

/-- Concrete run for ApplyDelta_update_path: a checksummed subject with
one key in every partition. -/
theorem ApplyDelta_update_path_witness :
    (sampleDelta.waitErr = none ∧ sampleDelta.update ≠ [] ∧
      ApplyDelta sampleDelta 4 = .ok (applyCalls sampleDelta 4)) ∧
    ((SyncCall.hmYield (cacheNS sampleDelta.subject) count concurrent
        (keysOf sampleDelta.update) ∈ applyCalls sampleDelta 4 ∧
      SyncCall.updateStreamed
        (EntityStream.withChecksums
          (EntityStream.hydrated
            (EntityStream.pairs (cacheNS sampleDelta.subject) count concurrent
              (keysOf sampleDelta.update)) 4)
          sampleDelta.update 4) ∈ applyCalls sampleDelta 4) ∧
     (∀ D A : List (String × Chk), (NewDelta false D A).update = [])) :=
  ⟨⟨rfl, by decide, rfl⟩,
   ApplyDelta_update_path sampleDelta 4 (applyCalls sampleDelta 4) rfl (by decide) rfl⟩

/-- C3: ApplyDelta launches a subtask for a partition exactly when the
partition is non-empty; a non-empty Delete partition is one db.Delete call
on the flat id list; with empty Create and Update no cache multi-fetch is
issued and, when Delete is non-empty, the whole trace is that single
db.Delete call. -/
theorem ApplyDelta_partition_dispatch (d : DeltaM) (ncpu : Nat) (tr : List SyncCall)
    (hn : d.waitErr = none) (h : ApplyDelta d ncpu = .ok tr) :
    (tr.filter isCreateCall ≠ [] ↔ d.create ≠ []) ∧
    (tr.filter isUpdateCall ≠ [] ↔ d.update ≠ []) ∧
    (d.delete ≠ [] → tr.filter isDeleteCall = [SyncCall.dbDelete d.delete]) ∧
    (d.delete = [] → tr.filter isDeleteCall = []) ∧
    (d.create = [] → d.update = [] → tr.filter isFetchCall = []) ∧
    (d.create = [] → d.update = [] → d.delete ≠ [] →
      tr = [SyncCall.dbDelete d.delete]) := by
  obtain ⟨-, htr⟩ := ApplyDelta_ok_inv h
  subst htr
  by_cases hc : d.create = [] <;> by_cases hu : d.update = [] <;>
    by_cases hd : d.delete = [] <;> cases hwc : d.subject.withChecksum <;>
    simp [applyCalls, createPart, updatePart, deletePart, List.length_pos,
      hc, hu, hd, hwc, List.filter_append, List.filter,
      isCreateCall, isUpdateCall, isDeleteCall, isFetchCall]

/-- Concrete run for ApplyDelta_partition_dispatch: spec scenario 2, an
empty Create and Update with a two-id Delete partition. -/
theorem ApplyDelta_partition_dispatch_witness :
    (deleteOnlyDelta.waitErr = none ∧
      ApplyDelta deleteOnlyDelta 4 = .ok (applyCalls deleteOnlyDelta 4)) ∧
    (((applyCalls deleteOnlyDelta 4).filter isCreateCall ≠ [] ↔
        deleteOnlyDelta.create ≠ []) ∧
     ((applyCalls deleteOnlyDelta 4).filter isUpdateCall ≠ [] ↔
        deleteOnlyDelta.update ≠ []) ∧
     (deleteOnlyDelta.delete ≠ [] →
        (applyCalls deleteOnlyDelta 4).filter isDeleteCall =
          [SyncCall.dbDelete deleteOnlyDelta.delete]) ∧
     (deleteOnlyDelta.delete = [] →
        (applyCalls deleteOnlyDelta 4).filter isDeleteCall = []) ∧
     (deleteOnlyDelta.create = [] → deleteOnlyDelta.update = [] →
        (applyCalls deleteOnlyDelta 4).filter isFetchCall = []) ∧
     (deleteOnlyDelta.create = [] → deleteOnlyDelta.update = [] →
        deleteOnlyDelta.delete ≠ [] →
        applyCalls deleteOnlyDelta 4 = [SyncCall.dbDelete deleteOnlyDelta.delete])) :=
  ⟨⟨rfl, rfl⟩,
   ApplyDelta_partition_dispatch deleteOnlyDelta 4 (applyCalls deleteOnlyDelta 4) rfl rfl⟩

/-- C7: every cache multi-fetch ApplyDelta issues uses batch size count =
4096 and concurrency concurrent = 8, the configured constants. -/
theorem HMYield_constants (d : DeltaM) (ncpu : Nat) (tr : List SyncCall)
    (h : ApplyDelta d ncpu = .ok tr) :
    count = 4096 ∧ concurrent = 8 ∧
    (∀ ns cnt conc ks, SyncCall.hmYield ns cnt conc ks ∈ tr →
      cnt = 4096 ∧ conc = 8) := by
  obtain ⟨-, htr⟩ := ApplyDelta_ok_inv h
  subst htr
  refine ⟨by decide, by decide, ?_⟩
  intro ns cnt conc ks hm
  obtain ⟨-, h4, h5, -⟩ := applyCalls_fetch_shape hm
  subst h4
  subst h5
  exact ⟨by decide, by decide⟩

/-- Concrete run for HMYield_constants: a checksummed subject with one key
in every partition. -/
theorem HMYield_constants_witness :
    ApplyDelta sampleDelta 4 = .ok (applyCalls sampleDelta 4) ∧
    (count = 4096 ∧ concurrent = 8 ∧
     ∀ ns cnt conc ks, SyncCall.hmYield ns cnt conc ks ∈ applyCalls sampleDelta 4 →
       cnt = 4096 ∧ conc = 8) :=
  ⟨rfl, HMYield_constants sampleDelta 4 (applyCalls sampleDelta 4) rfl⟩

/-- C8: the dump-signal key SyncAfterDump waits on and the namespace every
ApplyDelta multi-fetch addresses are built by the same rule, the string
icinga: followed by the subject key of the type name, so they agree for
the same subject. -/
theorem cache_namespace_uniform (d : DeltaM) (ncpu : Nat) (tr : List SyncCall)
    (h : ApplyDelta d ncpu = .ok tr) :
    syncAfterDumpKey d.subject = "icinga:" ++ utilsKey d.subject.typeName ':' ∧
    cacheNS d.subject = syncAfterDumpKey d.subject ∧
    (∀ ns cnt conc ks, SyncCall.hmYield ns cnt conc ks ∈ tr →
      ns = syncAfterDumpKey d.subject) := by
  obtain ⟨-, htr⟩ := ApplyDelta_ok_inv h
  subst htr
  refine ⟨rfl, rfl, ?_⟩
  intro ns cnt conc ks hm
  exact (applyCalls_fetch_shape hm).1

/-- Concrete run for cache_namespace_uniform: a checksummed subject with
one key in every partition. -/
theorem cache_namespace_uniform_witness :
    ApplyDelta sampleDelta 4 = .ok (applyCalls sampleDelta 4) ∧
    (syncAfterDumpKey sampleDelta.subject =
      "icinga:" ++ utilsKey sampleDelta.subject.typeName ':' ∧
     cacheNS sampleDelta.subject = syncAfterDumpKey sampleDelta.subject ∧
     (∀ ns cnt conc ks, SyncCall.hmYield ns cnt conc ks ∈ applyCalls sampleDelta 4 →
       ns = syncAfterDumpKey sampleDelta.subject)) :=
  ⟨rfl, cache_namespace_uniform sampleDelta 4 (applyCalls sampleDelta 4) rfl⟩

/-- C10: for both row types InsertValues is exactly the id checksum
(plain for HostgroupCustomvar, encoded for ServiceComment) prepended to
UpdateValues, so InsertValues is one element longer than UpdateValues. -/
theorem InsertValues_prepends_id_checksum :
    (∀ c : HostgroupCustomvar,
      c.InsertValues = [SqlValue.checksum c.Id] ++ c.UpdateValues ∧
      c.InsertValues.length = c.UpdateValues.length + 1) ∧
    (∀ s : ServiceComment,
      s.InsertValues = [SqlValue.encodeChecksum s.Id] ++ s.UpdateValues ∧
      s.InsertValues.length = s.UpdateValues.length + 1) :=
  ⟨fun c => ⟨rfl, rfl⟩, fun s => ⟨rfl, rfl⟩⟩

end IcingaDB
